import Mathlib

/-!
Verification development for the `api-ocr` repository (ocr-api-v2).

Shallow embedding of the core components named by the specification:
the multi-engine OCR fallback orchestrator (`app/services/ocr_factory.py`),
the pattern matcher and amount normalization (`app/utils/pattern_utils.py`),
the date utilities (`app/utils/date_utils.py`), and the metadata extractor
with its validation and confidence aggregation
(`app/extractors/metadata_extractor.py`).

Modelling conventions:
* Python `float` values (confidences, amounts, thresholds) are modelled as
  rationals `ℚ`; non-finite float literals (`inf`, `nan`) are outside the
  model.
* A backend's `extract_text` coroutine is modelled as a function from the
  number of previous invocations of that backend to an outcome: either
  recognized `(text, confidence)` or a raised exception carried as a message.
* Wall-clock fields (`processing_time`) are not modelled.
* Python exceptions escaping a function are modelled with `Except String`.
-/

namespace OcrApi

/-- Outcome of one invocation of a backend's `extract_text`:
either `(text, confidence)` or a raised exception with its message. -/
inductive OcrOutcome where
  | ok (text : String) (confidence : ℚ)
  | err (msg : String)
  deriving DecidableEq, Repr

/-- A recognition backend as registered in `OCRFactory.engines`:
a name and, for each invocation index (0 = first call), the outcome that
call produces.  Call-indexed behaviour lets distinct invocations of the
same backend differ, which the source permits (backends are opaque). -/
structure Engine where
  name : String
  runs : Nat → OcrOutcome

/-- Embedding of `EngineResult` (`app/schemas/engine.py`) as populated by
`extract_with_fallback`; `processing_time` (wall clock) is not modelled. -/
structure EngineResult where
  engine : String
  success : Bool
  confidence : ℚ
  error : Option String
  deriving DecidableEq, Repr

/-- Python whitespace for `str.strip` / `\s` (ASCII fragment of the
Unicode whitespace Python uses; the texts in this development are within
it). -/
def isPySpace (c : Char) : Bool :=
  c = ' ' || c = '\t' || c = '\n' || c = '\r' || c = '\x0b' || c = '\x0c'

/-- Python `str.strip()` on a character list: drop leading and trailing
whitespace. -/
def pyStripL (cs : List Char) : List Char :=
  ((cs.dropWhile isPySpace).reverse.dropWhile isPySpace).reverse

/-- Per-name invocation counters, instrumenting how often each backend's
`extract_text` has been called during one `extract_with_fallback` call. -/
abbrev Counts := String → Nat

/-- The all-zero counter. -/
def zeroCounts : Counts := fun _ => 0

/-- Number of invocations recorded for `n`. -/
def getCount (cs : Counts) (n : String) : Nat := cs n

/-- Record one more invocation of `n`. -/
def bumpCount (cs : Counts) (n : String) : Counts :=
  fun m => if m = n then cs n + 1 else cs m

/-- Dictionary lookup `self.engines[name]` / `name in self.engines`:
first engine with the given name. -/
def findEngine (factory : List Engine) (n : String) : Option Engine :=
  factory.find? (fun e => e.name == n)

/-- The acceptance test of `ocr_factory.py:150`:
`confidence >= settings.confidence_threshold and len(text.strip()) > 0`. -/
def accepted (threshold : ℚ) (text : String) (confidence : ℚ) : Bool :=
  decide (threshold ≤ confidence) && decide (0 < (pyStripL text.toList).length)

/-- The attempt loop of `extract_with_fallback` (`ocr_factory.py:132-171`):
tries each candidate backend in order, recording an `EngineResult` per
attempt; a successful attempt that passes `accepted` returns immediately;
an exception is caught and recorded as a failed attempt; if
`enable_fallback` is false the loop stops after the first backend.
Returns (accepted result if any, attempts in order, final counters). -/
def runLoop (threshold : ℚ) (enableFallback : Bool) :
    List Engine → Counts → (Option (String × ℚ) × List EngineResult × Counts)
  | [], counts => (none, [], counts)
  | e :: rest, counts =>
    let c := getCount counts e.name
    let counts1 := bumpCount counts e.name
    match e.runs c with
    | .ok t conf =>
      let att : EngineResult := ⟨e.name, true, conf, none⟩
      if accepted threshold t conf then
        (some (t, conf), [att], counts1)
      else if enableFallback then
        let r := runLoop threshold enableFallback rest counts1
        (r.1, att :: r.2.1, r.2.2)
      else (none, [att], counts1)
    | .err m =>
      let att : EngineResult := ⟨e.name, false, 0, some m⟩
      if enableFallback then
        let r := runLoop threshold enableFallback rest counts1
        (r.1, att :: r.2.1, r.2.2)
      else (none, [att], counts1)

/-- Order resolution of `ocr_factory.py:114-122`.  Mirrors Python
truthiness: `fallback_engines or settings.fallback_order` treats an empty
list like `None`, and line 119's `if enable_fallback and fallback_engines`
requires a non-empty list. -/
def resolveOrder (factory : List Engine) (preferred : String)
    (enableFallback : Bool) (fallbackEngines : Option (List String))
    (settingsOrder : List String) : List String :=
  if preferred == "auto" || (findEngine factory preferred).isNone then
    match fallbackEngines with
    | some l => if l.isEmpty then settingsOrder else l
    | none => settingsOrder
  else
    [preferred] ++
      (if enableFallback then
        match fallbackEngines with
        | some l =>
          if l.isEmpty then settingsOrder.filter (fun e => e ≠ preferred)
          else l.filter (fun e => e ≠ preferred)
        | none => settingsOrder.filter (fun e => e ≠ preferred)
      else [])

/-- The availability filter of `ocr_factory.py:125` fused with the dict
lookup of line 133: keep, in order, the registered engine for each
candidate name that is present in `self.engines`. -/
def availEngines (factory : List Engine) (order : List String) : List Engine :=
  order.filterMap (findEngine factory)

/-- Selection of the best attempt (`ocr_factory.py:174`):
`max(engines_results, key=lambda x: x.confidence, default=None)`.
Python `max` keeps the earliest element among ties. -/
def maxByConf (rs : List EngineResult) : Option EngineResult :=
  match rs with
  | [] => none
  | r :: rest =>
    some (rest.foldl (fun best x => if best.confidence < x.confidence then x else best) r)

/-- Instrumented embedding of `OCRFactory.extract_with_fallback`
(`ocr_factory.py:99-181`).  First component: the function's result —
`.ok (text, confidence, history)`, or `.error msg` when an exception
propagates out (only possible from the un-guarded re-invocation of the
best backend at lines 177-178, or a `KeyError` on the dict lookup there).
Second component: the final per-backend invocation counters. -/
def extractWithFallbackX (factory : List Engine) (preferred : String)
    (enableFallback : Bool) (fallbackEngines : Option (List String))
    (threshold : ℚ) (settingsOrder : List String) :
    Except String (String × ℚ × List EngineResult) × Counts :=
  let order := resolveOrder factory preferred enableFallback fallbackEngines settingsOrder
  let avail := availEngines factory order
  if avail.isEmpty then (.ok ("", 0, []), zeroCounts)
  else
    match runLoop threshold enableFallback avail zeroCounts with
    | (some (t, conf), results, counts) => (.ok (t, conf, results), counts)
    | (none, results, counts) =>
      match maxByConf results with
      | some best =>
        if 0 < best.confidence then
          match findEngine factory best.engine with
          | some e =>
            let k := getCount counts e.name
            let counts2 := bumpCount counts e.name
            match e.runs k with
            | .ok t c => (.ok (t, c, results), counts2)
            | .err m => (.error m, counts2)
          | none => (.error "KeyError", counts)
        else (.ok ("", 0, results), counts)
      | none => (.ok ("", 0, results), counts)

/-- `OCRFactory.extract_with_fallback` itself (invocation counters
dropped). -/
def extractWithFallback (factory : List Engine) (preferred : String)
    (enableFallback : Bool) (fallbackEngines : Option (List String))
    (threshold : ℚ) (settingsOrder : List String) :
    Except String (String × ℚ × List EngineResult) :=
  (extractWithFallbackX factory preferred enableFallback fallbackEngines
    threshold settingsOrder).1

/-- The attempt record a backend produces on its first invocation
(success record for an `ok` outcome, failure record for a raised
exception, as built at `ocr_factory.py:141-147` and 160-167). -/
def record0 (e : Engine) : EngineResult :=
  match e.runs 0 with
  | .ok _ c => ⟨e.name, true, c, none⟩
  | .err m => ⟨e.name, false, 0, some m⟩

/-- Text of a backend's first invocation (empty if it raises). -/
def okText (e : Engine) : String :=
  match e.runs 0 with
  | .ok t _ => t
  | .err _ => ""

/-- Confidence of a backend's first invocation (0 if it raises). -/
def okConf (e : Engine) : ℚ :=
  match e.runs 0 with
  | .ok _ c => c
  | .err _ => 0

/-- Whether a backend's first invocation passes the acceptance rule of
`ocr_factory.py:150`. -/
def acceptedAt (threshold : ℚ) (e : Engine) : Bool :=
  match e.runs 0 with
  | .ok t c => accepted threshold t c
  | .err _ => false

/-- No backend in `es` has been invoked yet according to `counts`. -/
def FreshCounts (es : List Engine) (counts : Counts) : Prop :=
  ∀ e ∈ es, getCount counts e.name = 0

/-! ### Character and string utilities

Python string primitives used by the pattern code, embedded over
`List Char`.  `str.lower` is modelled on the ASCII and Latin-1 ranges
(the repertoire of the French texts this code handles). -/

/-- Python `str.lower` restricted to ASCII and Latin-1 letters
(`É → é` etc.). -/
def toLowerLatin (c : Char) : Char :=
  let n := c.toNat
  if 65 ≤ n ∧ n ≤ 90 then Char.ofNat (n + 32)
  else if 192 ≤ n ∧ n ≤ 222 ∧ n ≠ 215 then Char.ofNat (n + 32)
  else c

/-- Lower-case a character list (Python `str.lower`). -/
def lowerL (cs : List Char) : List Char := cs.map toLowerLatin

/-- Python regex `\w` restricted to ASCII alphanumerics, underscore and
Latin-1 letters. -/
def isWordChar (c : Char) : Bool :=
  c.isAlphanum || c = '_' ||
    (192 ≤ c.toNat && c.toNat ≤ 255 && c.toNat ≠ 215 && c.toNat ≠ 247)

/-- Word-ness of an optional character (edges of the string count as
non-word), for regex `\b`. -/
def wordAt : Option Char → Bool
  | none => false
  | some c => isWordChar c

/-- Regex word boundary `\b` between two adjacent positions. -/
def boundary (l r : Option Char) : Bool := wordAt l != wordAt r

/-- Python `needle in hay` (contiguous substring test). -/
def listContains (hay needle : List Char) : Bool :=
  if needle.isPrefixOf hay then true
  else
    match hay with
    | [] => false
    | _ :: t => listContains t needle

/-- Python `hay.find(needle)`: index of the first occurrence, `-1` when
absent. -/
def pyFind (hay needle : List Char) : Int :=
  go hay 0
where
  go : List Char → Nat → Int
    | h, i =>
      if needle.isPrefixOf h then (i : Int)
      else
        match h with
        | [] => -1
        | _ :: t => go t (i + 1)

/-- Case-insensitive literal match (the literal is given lower-case);
returns the remaining suffix. -/
def matchCI (lit : List Char) (cs : List Char) : Option (List Char) :=
  match lit, cs with
  | [], rest => some rest
  | _ :: _, [] => none
  | l :: ls, c :: t => if toLowerLatin c = l then matchCI ls t else none

/-- Exactly `n` decimal digits; returns them and the remaining suffix. -/
def takeExactDigits (n : Nat) (cs : List Char) : Option (List Char × List Char) :=
  match n, cs with
  | 0, rest => some ([], rest)
  | _ + 1, [] => none
  | m + 1, c :: t =>
    if c.isDigit then
      match takeExactDigits m t with
      | some (ds, rest) => some (c :: ds, rest)
      | none => none
    else none

/-- Greedy `\s*`: count of leading whitespace and the remaining suffix. -/
def skipSpaces (cs : List Char) : Nat × List Char :=
  let sp := cs.takeWhile isPySpace
  (sp.length, cs.drop sp.length)

/-- The separator class `[/\-]` (with escaped backslash, `[/\\-]`) used
throughout the patterns. -/
def isSepChar (c : Char) : Bool := c = '/' || c = '\\' || c = '-'

/-! ### Currency token and `normalize_amount` (`pattern_utils.py:311-338`) -/

/-- One attempt of the alternation `FCFA|F\s*CFA|francs?\s*CFA`
(IGNORECASE) at the head of `cs`: number of characters consumed.
Alternatives are tried in source order; the greedy `\s*` and `s?` are
safe to resolve by maximal munch because the following literal starts
with a non-space, non-`s` character. -/
def tryCurrencyFull (cs : List Char) : Option Nat :=
  -- FCFA
  (match matchCI ['f', 'c', 'f', 'a'] cs with
   | some rest => some (cs.length - rest.length)
   | none => none) <|>
  -- F \s* CFA
  (match cs with
   | c :: t =>
     if toLowerLatin c = 'f' then
       let (k, t2) := skipSpaces t
       match matchCI ['c', 'f', 'a'] t2 with
       | some rest => some (1 + k + (t2.length - rest.length))
       | none => none
     else none
   | [] => none) <|>
  -- franc s? \s* CFA
  (match matchCI ['f', 'r', 'a', 'n', 'c'] cs with
   | some t =>
     let withS :=
       match t with
       | c :: t2 =>
         if toLowerLatin c = 's' then
           let (k, t3) := skipSpaces t2
           match matchCI ['c', 'f', 'a'] t3 with
           | some _ => some (5 + 1 + k + 3)
           | none => none
         else none
       | [] => none
     match withS with
     | some n => some n
     | none =>
       let (k, t3) := skipSpaces t
       match matchCI ['c', 'f', 'a'] t3 with
       | some _ => some (5 + k + 3)
       | none => none
   | none => none)

/-- The alternation `FCFA|F\s*CFA` (IGNORECASE) used by the second
amount pattern. -/
def tryCurrencyShort (cs : List Char) : Option Nat :=
  (match matchCI ['f', 'c', 'f', 'a'] cs with
   | some rest => some (cs.length - rest.length)
   | none => none) <|>
  (match cs with
   | c :: t =>
     if toLowerLatin c = 'f' then
       let (k, t2) := skipSpaces t
       match matchCI ['c', 'f', 'a'] t2 with
       | some rest => some (1 + k + (t2.length - rest.length))
       | none => none
     else none
   | [] => none)

/-- `re.sub(r'(?:FCFA|F\s*CFA|francs?\s*CFA)', '', s, flags=IGNORECASE)`:
delete every (leftmost, non-overlapping) occurrence of the currency
token. -/
def stripCurrencyAux : Nat → List Char → List Char
  | 0, cs => cs
  | _ + 1, [] => []
  | fuel + 1, c :: t =>
    match tryCurrencyFull (c :: t) with
    | some n =>
      if 0 < n then stripCurrencyAux fuel ((c :: t).drop n)
      else c :: stripCurrencyAux fuel t
    | none => c :: stripCurrencyAux fuel t

/-- Entry point of the substitution; the fuel `cs.length` is enough since
every step advances at least one character. -/
def stripCurrency (cs : List Char) : List Char :=
  stripCurrencyAux cs.length cs

/-- Python `str.split('.')`: split at every period, keeping empty
pieces. -/
def splitDot (cs : List Char) : List (List Char) :=
  cs.foldr
    (fun c acc =>
      match acc with
      | [] => [[c]]
      | h :: t => if c = '.' then [] :: h :: t else (c :: h) :: t)
    [[]]

/-- Digit list to the natural number it spells. -/
def digitsToNat (ds : List Char) : Nat :=
  ds.foldl (fun n c => n * 10 + (c.toNat - 48)) 0

/-- Python `float(s)` restricted to finite decimal literals
(optional sign, digits with at most one point, optional exponent),
returning the exact rational value; `inf`/`nan` spellings and digit
underscores are outside this model. -/
def pyFloat (cs0 : List Char) : Option ℚ :=
  let cs := pyStripL cs0
  let (sgnNeg, cs1) :=
    match cs with
    | '+' :: t => (false, t)
    | '-' :: t => (true, t)
    | _ => (false, cs)
  let intDs := cs1.takeWhile Char.isDigit
  let r1 := cs1.drop intDs.length
  let (fracDs, r2) :=
    match r1 with
    | '.' :: t => (t.takeWhile Char.isDigit, t.drop (t.takeWhile Char.isDigit).length)
    | _ => ([], r1)
  if intDs.isEmpty ∧ fracDs.isEmpty then none
  else
    let mantNum : Nat := digitsToNat (intDs ++ fracDs)
    let mantDen : Nat := 10 ^ fracDs.length
    let expPart : Option Int :=
      match r2 with
      | [] => some 0
      | e :: t =>
        if e = 'e' ∨ e = 'E' then
          let (eNeg, t1) :=
            match t with
            | '+' :: t2 => (false, t2)
            | '-' :: t2 => (true, t2)
            | _ => (false, t)
          let eDs := t1.takeWhile Char.isDigit
          if eDs.isEmpty ∨ ¬(t1.drop eDs.length).isEmpty then none
          else some (if eNeg then -(digitsToNat eDs : Int) else (digitsToNat eDs : Int))
        else none
    match expPart with
    | none => none
    | some ex =>
      let num : Int :=
        (if sgnNeg then -1 else 1) * (mantNum : Int) * (10 ^ ex.toNat : Nat)
      let den : Nat := mantDen * 10 ^ (-ex).toNat
      some (mkRat num den)

/-- `normalize_amount` (`pattern_utils.py:311-338`): strip the currency
token, strip spaces and commas, keep only the last period when several
remain, then parse as a Python float; `None` when parsing fails. -/
def normalizeAmount (s : String) : Option ℚ :=
  if s.isEmpty then none
  else
    let cs0 := stripCurrency s.toList
    let cs1 := pyStripL cs0
    let cs2 := (cs1.filter (fun c => c ≠ ' ')).filter (fun c => c ≠ ',')
    let parts := splitDot cs2
    let cs3 :=
      if 2 < parts.length then
        (parts.dropLast).foldr (· ++ ·) [] ++ ['.'] ++ parts.getLastD []
      else cs2
    pyFloat cs3


/-! ### `re.finditer` driver

Each pattern is embedded as a `tryAt` function: given the character just
before the current position (for `\b`), the position, and the remaining
suffix, it returns the match data and the number of characters consumed.
The driver scans left to right and skips past each match
(non-overlapping), exactly like `re.finditer`.  Greedy sub-patterns are
resolved inside each `tryAt` with explicit backtracking where the source
pattern needs it. -/

def finditerAux {α : Type} (tryAt : Option Char → Nat → List Char → Option (α × Nat)) :
    Nat → Option Char → Nat → List Char → List α
  | 0, _, _, _ => []
  | _ + 1, _, _, [] => []
  | fuel + 1, prev, pos, c :: t =>
    match tryAt prev pos (c :: t) with
    | some (a, n) =>
      if 0 < n then
        a :: finditerAux tryAt fuel (((c :: t).take n).getLast? ) (pos + n) ((c :: t).drop n)
      else a :: finditerAux tryAt fuel (some c) (pos + 1) t
    | none => finditerAux tryAt fuel (some c) (pos + 1) t

def finditer {α : Type} (tryAt : Option Char → Nat → List Char → Option (α × Nat))
    (cs : List Char) : List α :=
  finditerAux tryAt cs.length none 0 cs

/-! ### Mandat / bordereau patterns (`pattern_utils.py:24-85`)

The four patterns of each family are listed with strictly descending
priorities (10, 9, 5, 3) and `find_all_matches` sorts stably by
descending priority, so `find_best_match` is the first match of the
first pattern that matches at all. -/

/-- Tail common to several patterns: `[/\\-](\d{7})`; returns the
captured serial and the consumed length (8). -/
def trySepSerial (cs : List Char) : Option (String × Nat) :=
  match cs with
  | c :: t =>
    if isSepChar c then
      match takeExactDigits 7 t with
      | some (ds, _) => some (⟨ds⟩, 8)
      | none => none
    else none
  | [] => none

/-- `MD[/\\-](\d{7})` (IGNORECASE). -/
def mandatP1 (_ : Option Char) (_ : Nat) (cs : List Char) : Option (String × Nat) :=
  match matchCI ['m', 'd'] cs with
  | some t =>
    match trySepSerial t with
    | some (g, n) => some (g, 2 + n)
    | none => none
  | none => none

/-- `N[°o]?\s*(?:Mandat|MANDAT)[:\s]*MD[/\\-](\d{7})` (IGNORECASE);
the label word is a parameter so the bordereau pattern can reuse it. -/
def labelSerialTry (label : List Char) (prefixLit : List Char) (cs : List Char) :
    Option (String × Nat) :=
  match cs with
  | c :: t =>
    if toLowerLatin c = 'n' then
      let afterOpt : List (Nat × List Char) :=
        match t with
        | d :: t2 => if d = '°' ∨ toLowerLatin d = 'o' then [(2, t2), (1, t)] else [(1, t)]
        | [] => [(1, t)]
      afterOpt.firstM (fun (k, t2) =>
        let (w, t3) := skipSpaces t2
        match matchCI label t3 with
        | some t4 =>
          let colws := t4.takeWhile (fun c => c = ':' || isPySpace c)
          let t5 := t4.drop colws.length
          match matchCI prefixLit t5 with
          | some t6 =>
            match trySepSerial t6 with
            | some (g, n) => some (g, k + w + label.length + colws.length + prefixLit.length + n)
            | none => none
          | none => none
        | none => none)
    else none
  | [] => none

/-- Second mandat pattern. -/
def mandatP2 (_ : Option Char) (_ : Nat) (cs : List Char) : Option (String × Nat) :=
  labelSerialTry ['m', 'a', 'n', 'd', 'a', 't'] ['m', 'd'] cs

/-- `MD\s+(\d{7})` (IGNORECASE). -/
def mandatP3 (_ : Option Char) (_ : Nat) (cs : List Char) : Option (String × Nat) :=
  match matchCI ['m', 'd'] cs with
  | some t =>
    let (w, t2) := skipSpaces t
    if w = 0 then none
    else
      match takeExactDigits 7 t2 with
      | some (ds, _) => some (⟨ds⟩, 2 + w + 7)
      | none => none
  | none => none

/-- `[MN][DO][/\\-](\d{7})` (IGNORECASE). -/
def mandatP4 (_ : Option Char) (_ : Nat) (cs : List Char) : Option (String × Nat) :=
  match cs with
  | a :: b :: t =>
    if (toLowerLatin a = 'm' ∨ toLowerLatin a = 'n')
        ∧ (toLowerLatin b = 'd' ∨ toLowerLatin b = 'o') then
      match trySepSerial t with
      | some (g, n) => some (g, 2 + n)
      | none => none
    else none
  | _ => none

/-- `PatternMatcher.extract_mandat` (`pattern_utils.py:209-214`): group 1
of the best (highest-priority, then leftmost) match. -/
def pmExtractMandat (text : String) : Option String :=
  let cs := text.toList
  ((finditer mandatP1 cs) ++ (finditer mandatP2 cs) ++
    (finditer mandatP3 cs) ++ (finditer mandatP4 cs)).head?

/-- `BOR[/\\-](\d{7})` (IGNORECASE). -/
def bordereauP1 (_ : Option Char) (_ : Nat) (cs : List Char) : Option (String × Nat) :=
  match matchCI ['b', 'o', 'r'] cs with
  | some t =>
    match trySepSerial t with
    | some (g, n) => some (g, 3 + n)
    | none => none
  | none => none

/-- Second bordereau pattern (labelled form). -/
def bordereauP2 (_ : Option Char) (_ : Nat) (cs : List Char) : Option (String × Nat) :=
  labelSerialTry ['b', 'o', 'r', 'd', 'e', 'r', 'e', 'a', 'u'] ['b', 'o', 'r'] cs

/-- `BOR\s+(\d{7})` (IGNORECASE). -/
def bordereauP3 (_ : Option Char) (_ : Nat) (cs : List Char) : Option (String × Nat) :=
  match matchCI ['b', 'o', 'r'] cs with
  | some t =>
    let (w, t2) := skipSpaces t
    if w = 0 then none
    else
      match takeExactDigits 7 t2 with
      | some (ds, _) => some (⟨ds⟩, 3 + w + 7)
      | none => none
  | none => none

/-- `[B8]OR[/\\-](\d{7})` (IGNORECASE). -/
def bordereauP4 (_ : Option Char) (_ : Nat) (cs : List Char) : Option (String × Nat) :=
  match cs with
  | a :: t =>
    if toLowerLatin a = 'b' ∨ a = '8' then
      match matchCI ['o', 'r'] t with
      | some t2 =>
        match trySepSerial t2 with
        | some (g, n) => some (g, 3 + n)
        | none => none
      | none => none
    else none
  | [] => none

/-- `PatternMatcher.extract_bordereau` (`pattern_utils.py:216-222`). -/
def pmExtractBordereau (text : String) : Option String :=
  let cs := text.toList
  ((finditer bordereauP1 cs) ++ (finditer bordereauP2 cs) ++
    (finditer bordereauP3 cs) ++ (finditer bordereauP4 cs)).head?

/-- `PatternMatcher.validate_mandat_format` (`pattern_utils.py:259-270`):
non-empty, all digits, length 7, year prefix in the configured list.
(`str.isdigit` is modelled on ASCII digits, matching the `\d` of the
embedded patterns.) -/
def validateMandatFormat (number : String) : Bool :=
  if number.isEmpty || !(number.toList.all Char.isDigit) then false
  else if number.length ≠ 7 then false
  else ["24", "23", "22", "21", "20", "19", "25", "26"].contains ⟨number.toList.take 2⟩

/-- `PatternMatcher.validate_bordereau_format` (`pattern_utils.py:272-275`):
same rule. -/
def validateBordereauFormat (number : String) : Bool :=
  validateMandatFormat number

/-! ### Metadata extractor: mandat / bordereau fields
(`metadata_extractor.py:72-139`) -/

/-- An OCR bounding box (opaque list of coordinate rows). -/
abbrev BBox := List (List ℚ)

/-- One element of the optional `coordinates` list: a recognized span
`{text, bbox, confidence}` with possibly missing keys. -/
structure CoordItem where
  text : String
  bbox : Option BBox
  confidence : Option ℚ
  deriving DecidableEq

/-- Embedding of the `DocumentInfo` schema as populated by the
extractor. -/
structure DocumentInfo where
  type : String
  number : String
  full_reference : String
  confidence : ℚ
  coordinates : Option BBox
  deriving DecidableEq

/-- `MetadataExtractor._find_coordinates` (`metadata_extractor.py:255-276`):
first span whose text contains the searched text case-insensitively;
returns its bbox and its confidence (default 0.85). -/
def findCoordinatesIn (searchText : String) (coordinates : List CoordItem) :
    Option (Option BBox × ℚ) :=
  match coordinates.find?
      (fun it => listContains (lowerL it.text.toList) (lowerL searchText.toList)) with
  | some it => some (it.bbox, it.confidence.getD (mkRat 85 100))
  | none => none

/-- `MetadataExtractor.extract_mandat` (`metadata_extractor.py:72-106`):
best pattern match, gated by the format validation; the candidate is
discarded (treated as absent) when the validation fails. -/
def extractMandat (text : String) (coordinates : Option (List CoordItem)) :
    Option DocumentInfo :=
  if text.isEmpty then none
  else
    match pmExtractMandat text with
    | none => none
    | some number =>
      if !validateMandatFormat number then none
      else
        let found :=
          match coordinates with
          | some cl => if cl.isEmpty then none else findCoordinatesIn ("MD/" ++ number) cl
          | none => none
        let confidence := match found with | some (_, c) => c | none => mkRat 85 100
        some ⟨"mandat", number, "MD/" ++ number, confidence,
          match found with | some (b, _) => b | none => none⟩

/-- `MetadataExtractor.extract_bordereau` (`metadata_extractor.py:108-139`). -/
def extractBordereau (text : String) (coordinates : Option (List CoordItem)) :
    Option DocumentInfo :=
  if text.isEmpty then none
  else
    match pmExtractBordereau text with
    | none => none
    | some number =>
      if !validateBordereauFormat number then none
      else
        let found :=
          match coordinates with
          | some cl => if cl.isEmpty then none else findCoordinatesIn ("BOR/" ++ number) cl
          | none => none
        let confidence := match found with | some (_, c) => c | none => mkRat 85 100
        some ⟨"bordereau", number, "BOR/" ++ number, confidence,
          match found with | some (b, _) => b | none => none⟩

/-! ### Amount patterns (`pattern_utils.py:141-163`) and
`extract_all_amounts` / `extract_amounts` -/

/-- Character class `[\d\s]`. -/
def isAmtChar1 (c : Char) : Bool := c.isDigit || isPySpace c

/-- Character class `[\d,\.]`. -/
def isAmtChar2 (c : Char) : Bool := c.isDigit || c = ',' || c = '.'

/-- Character class `[\d\s,\.]`. -/
def isAmtChar3 (c : Char) : Bool := c.isDigit || isPySpace c || c = ',' || c = '.'

/-- Shared backtracking for the first two amount patterns:
`\b(CLASS+)\s*CURRENCY\b`.  The greedy `CLASS+` run is cut at every
length `k` from longest to shortest (regex backtracking order); for each
cut, `\s*` is maximal munch (the currency starts with a non-space) and
the trailing `\b` is checked after the currency. -/
def amtTryKs (tryCur : List Char → Option Nat) (run : List Char) (rest0 : List Char) :
    Nat → Option (String × Nat)
  | 0 => none
  | k + 1 =>
    let after := run.drop (k + 1) ++ rest0
    let (w, t2) := skipSpaces after
    match tryCur t2 with
    | some n =>
      let remaining := t2.drop n
      -- trailing \b: the currency ends in a word character
      if wordAt remaining.head? then amtTryKs tryCur run rest0 k
      else some (⟨run.take (k + 1)⟩, (k + 1) + w + n)
    | none => amtTryKs tryCur run rest0 k

/-- `\b([\d\s]+)\s*(?:FCFA|F\s*CFA|francs?\s*CFA)\b` (IGNORECASE). -/
def amountP1 (prev : Option Char) (_ : Nat) (cs : List Char) : Option (String × Nat) :=
  match cs with
  | c :: _ =>
    if !isAmtChar1 c then none
    else if wordAt prev == isWordChar c then none
    else
      let run := cs.takeWhile isAmtChar1
      amtTryKs tryCurrencyFull run (cs.drop run.length) run.length
  | [] => none

/-- `\b([\d,\.]+)\s*(?:FCFA|F\s*CFA)\b` (IGNORECASE). -/
def amountP2 (prev : Option Char) (_ : Nat) (cs : List Char) : Option (String × Nat) :=
  match cs with
  | c :: _ =>
    if !isAmtChar2 c then none
    else if wordAt prev == isWordChar c then none
    else
      let run := cs.takeWhile isAmtChar2
      amtTryKs tryCurrencyShort run (cs.drop run.length) run.length
  | [] => none

/-- Backtracking over the `[:\s]+` run length for the third amount
pattern: longest cut first, until a non-empty group follows. -/
def amtP3TryJ (run rest0 : List Char) (llen : Nat) : Nat → Option (String × Nat)
  | 0 => none
  | j + 1 =>
    let after := run.drop (j + 1) ++ rest0
    let grp := after.takeWhile isAmtChar3
    if grp.isEmpty then amtP3TryJ run rest0 llen j
    else
      let fc : Nat :=
        match matchCI ['f', 'c', 'f', 'a'] (after.drop grp.length) with
        | some _ => 4
        | none => 0
      some (⟨grp⟩, llen + (j + 1) + grp.length + fc)

/-- `(?:Montant|Total|Somme)[:\s]+([\d\s,\.]+)\s*(?:FCFA)?` (IGNORECASE):
the `[:\s]+` run is cut from longest to shortest until a non-empty group
follows; the optional `FCFA` is greedy. -/
def amountP3 (_ : Option Char) (_ : Nat) (cs : List Char) : Option (String × Nat) :=
  let lbl :=
    (matchCI ['m', 'o', 'n', 't', 'a', 'n', 't'] cs).map (fun r => (7, r)) <|>
    (matchCI ['t', 'o', 't', 'a', 'l'] cs).map (fun r => (5, r)) <|>
    (matchCI ['s', 'o', 'm', 'm', 'e'] cs).map (fun r => (5, r))
  match lbl with
  | none => none
  | some (llen, t) =>
    let run := t.takeWhile (fun c => c = ':' || isPySpace c)
    amtP3TryJ run (t.drop run.length) llen run.length

/-- `PatternMatcher.extract_all_amounts` (`pattern_utils.py:247-257`):
group 1 of every match, in stably-sorted descending-priority order
(pattern priorities 10, 9, 8 are already descending, so this is the
concatenation of the three scans). -/
def pmExtractAllAmounts (text : String) : List String :=
  let cs := text.toList
  (finditer amountP1 cs) ++ (finditer amountP2 cs) ++ (finditer amountP3 cs)

/-- `MetadataExtractor._categorize_amount` (`metadata_extractor.py:307-332`):
keyword search in the 30 characters before the amount's first
(case-insensitive) occurrence. -/
def categorizeAmount (amountStr : String) (fullText : String) : String :=
  let pos := pyFind (lowerL fullText.toList) (lowerL amountStr.toList)
  if pos = -1 then "autre"
  else
    let p := pos.toNat
    let start := p - 30
    let ctx := lowerL ((fullText.toList.drop start).take (p - start))
    if listContains ctx "total".toList || listContains ctx "somme".toList then "total"
    else if listContains ctx "net".toList then "net"
    else if listContains ctx "brut".toList then "brut"
    else if listContains ctx "taxe".toList || listContains ctx "tva".toList
        || listContains ctx "impot".toList || listContains ctx "impôt".toList then "taxe"
    else "autre"

/-- One extracted amount record (`metadata_extractor.py:196-202`). -/
structure AmountDict where
  value : ℚ
  currency : String
  formatted : String
  type : String
  confidence : ℚ
  deriving DecidableEq

/-- Decimal digits of a natural number (fuel-based so it reduces in the
kernel). -/
def natDigitsAux : Nat → Nat → List Char
  | 0, _ => []
  | _ + 1, 0 => []
  | fuel + 1, n => natDigitsAux fuel (n / 10) ++ [Char.ofNat (48 + n % 10)]

def natDigits (n : Nat) : List Char :=
  if n = 0 then ['0'] else natDigitsAux (n + 1) n

/-- Helper for digit grouping: walk the reversed digits, inserting the
separator after every third digit. -/
def groupDigitsGo (sep : Char) : List Char → Nat → List Char
  | [], _ => []
  | c :: t, k =>
    if k = 3 then sep :: c :: groupDigitsGo sep t 1
    else c :: groupDigitsGo sep t (k + 1)

/-- Group digits in threes from the right, separated by `sep`
(Python `f"{n:,}"` followed by `.replace(',', ' ')`). -/
def groupDigits (ds : List Char) (sep : Char) : List Char :=
  (groupDigitsGo sep ds.reverse 0).reverse

/-- `f"{int(v):,} FCFA".replace(',', ' ')` for a positive rational
(`int` truncates; here `v > 0` so this is the floor). -/
def formatAmount (v : ℚ) : String :=
  ⟨groupDigits (natDigits v.floor.toNat) ' '⟩ ++ " FCFA"

/-- `MetadataExtractor.extract_amounts` (`metadata_extractor.py:180-204`):
normalize every matched amount and keep only truthy positive values. -/
def extractAmounts (text : String) : List AmountDict :=
  if text.isEmpty then []
  else
    (pmExtractAllAmounts text).filterMap (fun s =>
      match normalizeAmount s with
      | some v =>
        if 0 < v then
          some ⟨v, "XAF", formatAmount v, categorizeAmount s text, mkRat 85 100⟩
        else none
      | none => none)

/-! ### Date utilities (`app/utils/date_utils.py`) -/

/-- A `datetime` at midnight, as produced by `datetime(year, month, day)`. -/
structure DateTimeD where
  year : Nat
  month : Nat
  day : Nat
  deriving DecidableEq

/-- Gregorian leap year. -/
def isLeapYear (y : Nat) : Bool :=
  (y % 4 = 0 && y % 100 ≠ 0) || y % 400 = 0

/-- Days in a month (0 for an invalid month). -/
def daysInMonth (y m : Nat) : Nat :=
  if m = 1 ∨ m = 3 ∨ m = 5 ∨ m = 7 ∨ m = 8 ∨ m = 10 ∨ m = 12 then 31
  else if m = 4 ∨ m = 6 ∨ m = 9 ∨ m = 11 then 30
  else if m = 2 then (if isLeapYear y then 29 else 28)
  else 0

/-- Whether `datetime(y, m, d)` succeeds (raises `ValueError` otherwise). -/
def datetimeValid (y m d : Nat) : Bool :=
  1 ≤ y && y ≤ 9999 && 1 ≤ m && m ≤ 12 && 1 ≤ d && d ≤ daysInMonth y m

/-- One entry of the list built by `extract_dates_from_text`
(`date_utils.py:123-185`): parsed date, raw matched text, format tag and
character position. -/
structure FoundDate where
  date : DateTimeD
  raw : String
  format : String
  position : Nat
  deriving DecidableEq

/-- `\b(\d{2})[/\-](\d{2})[/\-](\d{4})\b` with the `datetime` validity
check of `date_utils.py:137-148`. -/
def dateTryA (prev : Option Char) (pos : Nat) (cs : List Char) :
    Option (FoundDate × Nat) :=
  match cs with
  | c :: _ =>
    if !c.isDigit then none
    else if wordAt prev then none
    else
      match takeExactDigits 2 cs with
      | some (dds, r1) =>
        match r1 with
        | s1 :: r2 =>
          if s1 = '/' ∨ s1 = '-' then
            match takeExactDigits 2 r2 with
            | some (mds, r3) =>
              match r3 with
              | s2 :: r4 =>
                if s2 = '/' ∨ s2 = '-' then
                  match takeExactDigits 4 r4 with
                  | some (yds, r5) =>
                    if wordAt r5.head? then none
                    else
                      let d := digitsToNat dds
                      let m := digitsToNat mds
                      let y := digitsToNat yds
                      if datetimeValid y m d then
                        some (⟨⟨y, m, d⟩, ⟨cs.take 10⟩, "JJ/MM/AAAA", pos⟩, 10)
                      else none
                  | none => none
                else none
              | [] => none
            | none => none
          else none
        | [] => none
      | none => none
  | [] => none

/-- `\b(\d{4})[/\-](\d{2})[/\-](\d{2})\b` (ISO) with validity check
(`date_utils.py:151-163`). -/
def dateTryB (prev : Option Char) (pos : Nat) (cs : List Char) :
    Option (FoundDate × Nat) :=
  match cs with
  | c :: _ =>
    if !c.isDigit then none
    else if wordAt prev then none
    else
      match takeExactDigits 4 cs with
      | some (yds, r1) =>
        match r1 with
        | s1 :: r2 =>
          if s1 = '/' ∨ s1 = '-' then
            match takeExactDigits 2 r2 with
            | some (mds, r3) =>
              match r3 with
              | s2 :: r4 =>
                if s2 = '/' ∨ s2 = '-' then
                  match takeExactDigits 2 r4 with
                  | some (dds, r5) =>
                    if wordAt r5.head? then none
                    else
                      let y := digitsToNat yds
                      let m := digitsToNat mds
                      let d := digitsToNat dds
                      if datetimeValid y m d then
                        some (⟨⟨y, m, d⟩, ⟨cs.take 10⟩, "AAAA-MM-JJ", pos⟩, 10)
                      else none
                  | none => none
                else none
              | [] => none
            | none => none
          else none
        | [] => none
      | none => none
  | [] => none

/-- The French month table `MOIS_FR` (`date_utils.py:14-30`), in Python
dict insertion order. -/
def moisFr : List (List Char × Nat) :=
  [("janvier".toList, 1), ("fevrier".toList, 2), ("février".toList, 2),
   ("mars".toList, 3), ("avril".toList, 4), ("mai".toList, 5),
   ("juin".toList, 6), ("juillet".toList, 7), ("aout".toList, 8),
   ("août".toList, 8), ("septembre".toList, 9), ("octobre".toList, 10),
   ("novembre".toList, 11), ("decembre".toList, 12), ("décembre".toList, 12)]

/-- `\b(\d{1,2})\s+MONTH\s+(\d{4})\b` (IGNORECASE) for one month name;
the greedy `\d{1,2}` backtracks from two digits to one. -/
def dateTryMonth (mois : List Char) (num : Nat) (prev : Option Char) (pos : Nat)
    (cs : List Char) : Option (FoundDate × Nat) :=
  match cs with
  | c :: _ =>
    if !c.isDigit then none
    else if wordAt prev then none
    else
      let dayDigits := (cs.takeWhile Char.isDigit).take 2
      let tryLen : Nat → Option (FoundDate × Nat) := fun dl =>
        let ds := cs.take dl
        let r1 := cs.drop dl
        let (w1, r2) := skipSpaces r1
        if w1 = 0 then none
        else
          match matchCI mois r2 with
          | some r3 =>
            let (w2, r4) := skipSpaces r3
            if w2 = 0 then none
            else
              match takeExactDigits 4 r4 with
              | some (yds, r5) =>
                if wordAt r5.head? then none
                else
                  let d := digitsToNat ds
                  let y := digitsToNat yds
                  let total := dl + w1 + mois.length + w2 + 4
                  if datetimeValid y num d then
                    some (⟨⟨y, num, d⟩, ⟨cs.take total⟩, "JJ Mois AAAA", pos⟩, total)
                  else none
              | none => none
          | none => none
      if dayDigits.length = 2 then
        match tryLen 2 with
        | some r => some r
        | none => tryLen 1
      else tryLen 1
  | [] => none

/-- Stable insertion of a date after all entries with position ≤ its
own (used to model Python's stable `list.sort(key=position)`). -/
def insertByPos (x : FoundDate) : List FoundDate → List FoundDate
  | [] => [x]
  | y :: t => if y.position ≤ x.position then y :: insertByPos x t else x :: y :: t

/-- Stable ascending sort by position (insertion sort; later elements are
placed after earlier ones with equal positions, matching Python's stable
sort). -/
def sortByPos (l : List FoundDate) : List FoundDate :=
  l.foldl (fun acc x => insertByPos x acc) []

/-- `extract_dates_from_text` (`date_utils.py:123-185`): the three scans
appended in source order, then stably sorted by position. -/
def extractDatesFromText (text : String) : List FoundDate :=
  if text.isEmpty then []
  else
    let cs := text.toList
    let all :=
      (finditer dateTryA cs) ++ (finditer dateTryB cs) ++
        (moisFr.foldr (fun (p : List Char × Nat) acc =>
          finditer (dateTryMonth p.1 p.2) cs ++ acc) [])
    sortByPos all

/-- `datetime.isoformat()` for a midnight datetime:
`YYYY-MM-DDT00:00:00`. -/
def isoformat (d : DateTimeD) : String :=
  let pad := fun (k n : Nat) =>
    let ds := natDigits n
    ⟨List.replicate (k - ds.length) '0' ++ ds⟩
  pad 4 d.year ++ "-" ++ pad 2 d.month ++ "-" ++ pad 2 d.day ++ "T00:00:00"

/-- One extracted date record (`metadata_extractor.py:170-176`). -/
structure DateDict where
  value : String
  formatted : String
  type : String
  confidence : ℚ
  deriving DecidableEq

/-- `MetadataExtractor._categorize_date` (`metadata_extractor.py:278-305`):
keyword search in the 50 characters before the date's first
(case-insensitive) occurrence. -/
def categorizeDate (dateStr : String) (fullText : String) : String :=
  let pos := pyFind (lowerL fullText.toList) (lowerL dateStr.toList)
  if pos = -1 then "autre"
  else
    let p := pos.toNat
    let start := p - 50
    let ctx := lowerL ((fullText.toList.drop start).take (p - start))
    if listContains ctx "émission".toList || listContains ctx "emission".toList
        || listContains ctx "émis".toList || listContains ctx "emis".toList
        || listContains ctx "fait".toList then "emission"
    else if listContains ctx "paiement".toList || listContains ctx "payé".toList
        || listContains ctx "paye".toList || listContains ctx "règlement".toList
        || listContains ctx "reglement".toList then "paiement"
    else if listContains ctx "signé".toList || listContains ctx "signe".toList
        || listContains ctx "signature".toList then "signature"
    else if listContains ctx "échéance".toList || listContains ctx "echeance".toList
        || listContains ctx "limite".toList then "echeance"
    else "autre"

/-- `MetadataExtractor.extract_dates` (`metadata_extractor.py:157-178`):
ISO value, raw text as `formatted`, contextual category, fixed
confidence 0.80. -/
def extractDates (text : String) : List DateDict :=
  if text.isEmpty then []
  else
    (extractDatesFromText text).map (fun di =>
      ⟨isoformat di.date, di.raw, categorizeDate di.raw text, mkRat 8 10⟩)

/-! ### Metadata record, validation and global confidence
(`metadata_extractor.py:349-440`) -/

/-- Beneficiary record. -/
structure Beneficiaire where
  name : String
  confidence : ℚ
  deriving DecidableEq

/-- The metadata dictionary assembled by `extract_all`
(`metadata_extractor.py:54-61`). -/
structure Metadata where
  mandat : Option DocumentInfo
  bordereau : Option DocumentInfo
  exercice : Option String
  dates : List DateDict
  amounts : List AmountDict
  beneficiaire : Option Beneficiaire

/-- Python `int(s)` on a string: optional sign and decimal digits
(underscore grouping not modelled); `none` models `ValueError`. -/
def pyInt (s : String) : Option Int :=
  let cs := pyStripL s.toList
  let (neg, cs1) :=
    match cs with
    | '+' :: t => (false, t)
    | '-' :: t => (true, t)
    | _ => (false, cs)
  if cs1.isEmpty ∨ ¬(cs1.all Char.isDigit) then none
  else some (if neg then -(digitsToNat cs1 : Int) else (digitsToNat cs1 : Int))

/-- Python `s[:2]`. -/
def pyTake2 (s : String) : String := ⟨s.toList.take 2⟩

/-- Python `s[-2:]`. -/
def pyLast2 (s : String) : String := ⟨s.toList.drop (s.toList.length - 2)⟩

/-- `MetadataExtractor._calculate_overall_confidence`
(`metadata_extractor.py:404-440`): weighted sum over present fields,
renormalized by the total weight of present fields. -/
def calculateOverallConfidence (md : Metadata) : ℚ :=
  let ms : ℚ := match md.mandat with | some m => m.confidence * mkRat 4 10 | none => 0
  let mw : ℚ := match md.mandat with | some _ => mkRat 4 10 | none => 0
  let bs : ℚ := match md.bordereau with | some b => b.confidence * mkRat 3 10 | none => 0
  let bw : ℚ := match md.bordereau with | some _ => mkRat 3 10 | none => 0
  let es : ℚ := match md.exercice with | some _ => mkRat 9 10 * mkRat 2 10 | none => 0
  let ew : ℚ := match md.exercice with | some _ => mkRat 2 10 | none => 0
  let ds : ℚ := if md.dates ≠ [] ∨ md.amounts ≠ [] then mkRat 8 10 * mkRat 1 10 else 0
  let dw : ℚ := if md.dates ≠ [] ∨ md.amounts ≠ [] then mkRat 1 10 else 0
  let totalWeight := mw + bw + ew + dw
  if totalWeight = 0 then 0 else (ms + bs + es + ds) / totalWeight

/-- The specification's description of the aggregation, written as a
weighted average over the list of present `(weight, confidence)` fields
(mandate 0.4 / own, dispatch slip 0.3 / own, fiscal year 0.2 / fixed
0.9, dates-or-amounts 0.1 / fixed 0.8), renormalized over present
fields, 0 when nothing is present.  Used to compare the code's
aggregation against the spec's wording. -/
def overallConfidenceSpec (md : Metadata) : ℚ :=
  let fields : List (ℚ × ℚ) :=
    (match md.mandat with | some m => [(mkRat 4 10, m.confidence)] | none => []) ++
    (match md.bordereau with | some b => [(mkRat 3 10, b.confidence)] | none => []) ++
    (match md.exercice with | some _ => [(mkRat 2 10, mkRat 9 10)] | none => []) ++
    (if md.dates ≠ [] ∨ md.amounts ≠ [] then [(mkRat 1 10, mkRat 8 10)] else [])
  if fields.isEmpty then 0
  else ((fields.map (fun wc => wc.1 * wc.2)).sum) / ((fields.map (fun wc => wc.1)).sum)

/-- The validation verdict (`metadata_extractor.py:397-402`). -/
structure ValidationResult where
  is_valid : Bool
  errors : List String
  warnings : List String
  confidence : ℚ

/-- `MetadataExtractor.validate_extraction`
(`metadata_extractor.py:349-402`): format errors, presence warnings,
fiscal-year range warning / parse error, and the mandat/exercice year
consistency warning. -/
def validateExtraction (md : Metadata) : ValidationResult :=
  let errors :=
    (match md.mandat with
     | some m =>
       if !validateMandatFormat m.number then ["Format mandat invalide: " ++ m.number]
       else []
     | none => []) ++
    (match md.bordereau with
     | some b =>
       if !validateBordereauFormat b.number then
         ["Format bordereau invalide: " ++ b.number]
       else []
     | none => []) ++
    (match md.exercice with
     | some ex =>
       match pyInt ex with
       | some _ => []
       | none => ["Exercice invalide: " ++ ex]
     | none => [])
  let warnings :=
    (match md.mandat with | some _ => [] | none => ["Aucun mandat trouvé"]) ++
    (match md.bordereau with | some _ => [] | none => ["Aucun bordereau trouvé"]) ++
    (match md.exercice with
     | some ex =>
       match pyInt ex with
       | some y => if ¬(2015 ≤ y ∧ y ≤ 2030) then ["Exercice hors plage valide: " ++ ex] else []
       | none => []
     | none => ["Aucun exercice trouvé"]) ++
    (match md.mandat, md.exercice with
     | some m, some ex =>
       if pyTake2 m.number ≠ pyLast2 ex then
         ["Incohérence année mandat (" ++ pyTake2 m.number ++ ") et exercice ("
           ++ pyLast2 ex ++ ")"]
       else []
     | _, _ => [])
  ⟨errors.isEmpty, errors, warnings, calculateOverallConfidence md⟩

/-! ### Concrete backends used to exercise the orchestrator -/

/-- A backend whose first call yields confidence 0.3 (below the default
threshold 0.6) and whose second call yields a different text at 0.5. -/
def engTwice : Engine :=
  ⟨"twice", fun k => if k = 0 then .ok "x" (mkRat 3 10) else .ok "y" (mkRat 1 2)⟩

/-- A backend whose first call succeeds at confidence 0.3 and whose
second call raises. -/
def engFlaky : Engine :=
  ⟨"flaky", fun k => if k = 0 then .ok "x" (mkRat 3 10) else .err "boom"⟩

/-- A backend that always raises. -/
def engDown : Engine := ⟨"down", fun _ => .err "down"⟩

/-- A backend that always succeeds above the default threshold. -/
def engGood : Engine := ⟨"good", fun _ => .ok "hello" (mkRat 7 10)⟩

/-! ## Lemmas about the invocation counters -/

theorem getCount_bump_ne (cs : Counts) {n m : String} (h : n ≠ m) :
    getCount (bumpCount cs m) n = getCount cs n := by
  simp [getCount, bumpCount, h]

theorem getCount_bump_self (cs : Counts) (n : String) :
    getCount (bumpCount cs n) n = getCount cs n + 1 := by
  simp [getCount, bumpCount]

/-! ## Lemmas about the attempt loop -/

theorem runLoop_len_le (th : ℚ) (fb : Bool) (es : List Engine) (counts : Counts) :
    (runLoop th fb es counts).2.1.length ≤ es.length := by
  induction es generalizing counts with
  | nil => simp [runLoop]
  | cons e rest ih =>
    simp only [runLoop]
    cases he : e.runs (getCount counts e.name) with
    | ok t c =>
      by_cases ha : accepted th t c
      · simp [ha]
      · by_cases hf : fb = true
        · subst hf
          simpa [ha] using Nat.succ_le_succ (ih (bumpCount counts e.name))
        · have : fb = false := by simpa using hf
          subst this; simp [ha]
    | err m =>
      by_cases hf : fb = true
      · subst hf
        simpa using Nat.succ_le_succ (ih (bumpCount counts e.name))
      · have : fb = false := by simpa using hf
        subst this; simp

theorem runLoop_mem (th : ℚ) (fb : Bool) (es : List Engine) (counts : Counts) :
    ∀ r ∈ (runLoop th fb es counts).2.1, ∃ e ∈ es, r.engine = e.name := by
  induction es generalizing counts with
  | nil => simp [runLoop]
  | cons e rest ih =>
    intro r hr
    simp only [runLoop] at hr
    cases he : e.runs (getCount counts e.name) <;> rw [he] at hr
    case ok t c =>
      by_cases ha : accepted th t c
      · simp [ha] at hr
        exact ⟨e, List.mem_cons_self e rest, by rw [hr]⟩
      · by_cases hf : fb = true
        · subst hf
          simp [ha] at hr
          rcases hr with hr | hr
          · exact ⟨e, List.mem_cons_self e rest, by rw [hr]⟩
          · obtain ⟨e', he', hn⟩ := ih (bumpCount counts e.name) r hr
            exact ⟨e', List.mem_cons_of_mem e he', hn⟩
        · have : fb = false := by simpa using hf
          subst this
          simp [ha] at hr
          exact ⟨e, List.mem_cons_self e rest, by rw [hr]⟩
    case err m =>
      by_cases hf : fb = true
      · subst hf
        simp at hr
        rcases hr with hr | hr
        · exact ⟨e, List.mem_cons_self e rest, by rw [hr]⟩
        · obtain ⟨e', he', hn⟩ := ih (bumpCount counts e.name) r hr
          exact ⟨e', List.mem_cons_of_mem e he', hn⟩
      · have : fb = false := by simpa using hf
        subst this
        simp at hr
        exact ⟨e, List.mem_cons_self e rest, by rw [hr]⟩

theorem runLoop_no_accept (th : ℚ) (es : List Engine) (counts : Counts)
    (hfc : FreshCounts es counts) (hnd : (es.map Engine.name).Nodup)
    (hna : ∀ e ∈ es, acceptedAt th e = false) :
    (runLoop th true es counts).1 = none ∧
    (runLoop th true es counts).2.1 = es.map record0 := by
  induction es generalizing counts with
  | nil => simp [runLoop]
  | cons e rest ih =>
    have hc0 : getCount counts e.name = 0 := hfc e (List.mem_cons_self e rest)
    have hfc' : FreshCounts rest (bumpCount counts e.name) := by
      intro e' he'
      have hne : e'.name ≠ e.name := by
        intro hcontra
        simp [List.nodup_cons] at hnd
        exact hnd.1 _ he' hcontra
      rw [getCount_bump_ne _ hne]
      exact hfc e' (List.mem_cons_of_mem e he')
    have hnd' : (rest.map Engine.name).Nodup := by
      simp [List.nodup_cons] at hnd
      exact hnd.2
    have hna' : ∀ e' ∈ rest, acceptedAt th e' = false :=
      fun e' he' => hna e' (List.mem_cons_of_mem e he')
    have hnae := hna e (List.mem_cons_self e rest)
    simp only [runLoop, hc0]
    cases he : e.runs 0 with
    | ok t c =>
      have ha : accepted th t c = false := by
        unfold acceptedAt at hnae; rw [he] at hnae; exact hnae
      obtain ⟨ih1, ih2⟩ := ih (bumpCount counts e.name) hfc' hnd' hna'
      simp [ha, ih1, ih2, record0, he]
    | err m =>
      obtain ⟨ih1, ih2⟩ := ih (bumpCount counts e.name) hfc' hnd' hna'
      simp [ih1, ih2, record0, he]

theorem runLoop_first_accept (th : ℚ) (es : List Engine) (counts : Counts) (i : Nat)
    (hfc : FreshCounts es counts) (hnd : (es.map Engine.name).Nodup)
    (hi : i < es.length)
    (hacc : acceptedAt th (es.get ⟨i, hi⟩) = true)
    (hmin : ∀ j (hj : j < i), acceptedAt th (es.get ⟨j, Nat.lt_trans hj hi⟩) = false) :
    (runLoop th true es counts).1
      = some (okText (es.get ⟨i, hi⟩), okConf (es.get ⟨i, hi⟩)) ∧
    (runLoop th true es counts).2.1 = (es.take (i + 1)).map record0 := by
  induction es generalizing counts i with
  | nil => exact absurd hi (by simp)
  | cons e rest ih =>
    have hc0 : getCount counts e.name = 0 := hfc e (List.mem_cons_self e rest)
    cases i with
    | zero =>
      have hacc0 : acceptedAt th e = true := hacc
      simp only [runLoop, hc0]
      cases he : e.runs 0 with
      | ok t c =>
        have ha : accepted th t c = true := by
          unfold acceptedAt at hacc0; rw [he] at hacc0; exact hacc0
        simp [ha, record0, okText, okConf, he]
      | err m =>
        unfold acceptedAt at hacc0; rw [he] at hacc0; exact absurd hacc0 (by simp)
    | succ j =>
      have hfc' : FreshCounts rest (bumpCount counts e.name) := by
        intro e' he'
        have hne : e'.name ≠ e.name := by
          intro hcontra
          simp [List.nodup_cons] at hnd
          exact hnd.1 _ he' hcontra
        rw [getCount_bump_ne _ hne]
        exact hfc e' (List.mem_cons_of_mem e he')
      have hnd' : (rest.map Engine.name).Nodup := by
        simp [List.nodup_cons] at hnd
        exact hnd.2
      have hj' : j < rest.length := Nat.lt_of_succ_lt_succ hi
      have hacc' : acceptedAt th (rest.get ⟨j, hj'⟩) = true := hacc
      have hmin' : ∀ k (hk : k < j),
          acceptedAt th (rest.get ⟨k, Nat.lt_trans hk hj'⟩) = false := by
        intro k hk
        exact hmin (k + 1) (Nat.succ_lt_succ hk)
      have hnae : acceptedAt th e = false := by
        simpa using hmin 0 (Nat.succ_pos j)
      simp only [runLoop, hc0]
      cases he : e.runs 0 with
      | ok t c =>
        have ha : accepted th t c = false := by
          unfold acceptedAt at hnae; rw [he] at hnae; exact hnae
        obtain ⟨ih1, ih2⟩ := ih (bumpCount counts e.name) j hfc' hnd' hj' hacc' hmin'
        simp [ha, ih1, ih2, record0, he]
      | err m =>
        obtain ⟨ih1, ih2⟩ := ih (bumpCount counts e.name) j hfc' hnd' hj' hacc' hmin'
        simp [ih1, ih2, record0, he]

theorem runLoop_allerr (th : ℚ) (es : List Engine) (counts : Counts)
    (He : ∀ e ∈ es, ∀ k, ∃ m, e.runs k = .err m) :
    (runLoop th true es counts).1 = none ∧
    (runLoop th true es counts).2.1.length = es.length ∧
    ∀ r ∈ (runLoop th true es counts).2.1, r.success = false ∧ r.confidence = 0 := by
  induction es generalizing counts with
  | nil => simp [runLoop]
  | cons e rest ih =>
    obtain ⟨m, hm⟩ := He e (List.mem_cons_self e rest) (getCount counts e.name)
    have He' : ∀ e' ∈ rest, ∀ k, ∃ m', e'.runs k = .err m' :=
      fun e' h k => He e' (List.mem_cons_of_mem e h) k
    obtain ⟨ih1, ih2, ih3⟩ := ih (bumpCount counts e.name) He'
    simp only [runLoop, hm]
    refine ⟨by simp [ih1], by simp [ih2], ?_⟩
    intro r hr
    simp at hr
    rcases hr with hr | hr
    · simp [hr]
    · exact ih3 r hr

theorem runLoop_nofb_cons (th : ℚ) (e : Engine) (rest : List Engine) (counts : Counts) :
    runLoop th false (e :: rest) counts
      = match e.runs (getCount counts e.name) with
        | .ok t conf =>
          if accepted th t conf then
            (some (t, conf), [⟨e.name, true, conf, none⟩], bumpCount counts e.name)
          else (none, [⟨e.name, true, conf, none⟩], bumpCount counts e.name)
        | .err m => (none, [⟨e.name, false, 0, some m⟩], bumpCount counts e.name) := by
  simp only [runLoop]
  cases e.runs (getCount counts e.name) with
  | ok t conf =>
    by_cases ha : accepted th t conf
    · simp [ha]
    · simp [ha]
  | err m => simp

theorem maxFold_mem (rest : List EngineResult) (r : EngineResult) :
    rest.foldl (fun best x => if best.confidence < x.confidence then x else best) r
      ∈ r :: rest := by
  induction rest generalizing r with
  | nil => simp
  | cons x t ih =>
    simp only [List.foldl_cons]
    have hv := ih (if r.confidence < x.confidence then x else r)
    by_cases hc : r.confidence < x.confidence
    · rw [if_pos hc] at hv ⊢
      rcases List.mem_cons.mp hv with h | h
      · simp [h]
      · exact List.mem_cons_of_mem _ (List.mem_cons_of_mem _ h)
    · rw [if_neg hc] at hv ⊢
      rcases List.mem_cons.mp hv with h | h
      · simp [h]
      · exact List.mem_cons_of_mem _ (List.mem_cons_of_mem _ h)

theorem maxByConf_mem (rs : List EngineResult) (b : EngineResult)
    (h : maxByConf rs = some b) : b ∈ rs := by
  cases rs with
  | nil => simp [maxByConf] at h
  | cons r rest =>
    simp only [maxByConf, Option.some.injEq] at h
    rw [← h]
    exact maxFold_mem rest r

theorem mem_avail_find (factory : List Engine) (order : List String) (e : Engine)
    (h : e ∈ availEngines factory order) : findEngine factory e.name = some e := by
  unfold availEngines at h
  obtain ⟨n, _, hf⟩ := List.mem_filterMap.mp h
  have hname : e.name = n := by
    have := List.find?_some hf
    simpa using this
  rw [hname]
  exact hf

theorem findEngine_mem (factory : List Engine) (n : String) (e : Engine)
    (h : findEngine factory n = some e) : e ∈ factory :=
  List.mem_of_find?_eq_some h

/-! ## Claim theorems: orchestrator -/

/-- **C1**: with `enable_fallback = true` and a resolved order of N
available engines, the attempt loop makes at most N attempts (the
history is never longer than the resolved order), and it terminates at
the first attempt whose confidence reaches the threshold with non-empty
trimmed text, returning that attempt's text, confidence, and the history
of exactly the first i+1 attempts — engines after it are never tried. -/
theorem claim1_fallback_first_accept :
    (∀ (threshold : ℚ) (fb : Bool) (es : List Engine) (counts : Counts),
      (runLoop threshold fb es counts).2.1.length ≤ es.length) ∧
    (∀ (factory : List Engine) (preferred : String)
      (fallbackEngines : Option (List String)) (settingsOrder : List String)
      (threshold : ℚ) (i : Nat) (os : List Engine)
      (hos : os = availEngines factory
        (resolveOrder factory preferred true fallbackEngines settingsOrder))
      (hnd : (os.map Engine.name).Nodup) (hi : i < os.length)
      (hacc : acceptedAt threshold (os.get ⟨i, hi⟩) = true)
      (hmin : ∀ j (hj : j < i),
        acceptedAt threshold (os.get ⟨j, Nat.lt_trans hj hi⟩) = false),
      extractWithFallback factory preferred true fallbackEngines threshold settingsOrder
        = .ok (okText (os.get ⟨i, hi⟩), okConf (os.get ⟨i, hi⟩),
            (os.take (i + 1)).map record0) ∧
      ((os.take (i + 1)).map record0).length = i + 1 ∧ i + 1 ≤ os.length) := by
  constructor
  · exact runLoop_len_le
  · intro factory preferred fallbackEngines settingsOrder threshold i os hos hnd hi hacc hmin
    obtain ⟨h1, h2⟩ := runLoop_first_accept threshold os zeroCounts i
      (fun e _ => rfl) hnd hi hacc hmin
    have hlen : 0 < os.length := Nat.lt_of_le_of_lt (Nat.zero_le i) hi
    have hne : os.isEmpty = false := by
      cases os with
      | nil => simp at hlen
      | cons a t => rfl
    refine ⟨?_, ?_, ?_⟩
    · simp only [extractWithFallback, extractWithFallbackX, ← hos, hne]
      rcases hr : runLoop threshold true os zeroCounts with ⟨r1, res, cnt⟩
      rw [hr] at h1 h2
      simp only at h1 h2
      subst h1
      subst h2
      simp
    · simp [List.length_take]
      omega
    · omega

/-- Witness for C1: two backends, the first below threshold, the second
accepted; the orchestrator returns the second backend's result with a
two-attempt history. -/
theorem claim1_fallback_first_accept_witness :
    extractWithFallback [engDown, engGood] "auto" true none (mkRat 6 10)
        ["down", "good"]
      = .ok ("hello", mkRat 7 10,
          [⟨"down", false, 0, some "down"⟩, ⟨"good", true, mkRat 7 10, none⟩])
    ∧ (1 : Nat) + 1 ≤ 2 := by
  have h := claim1_fallback_first_accept.2 [engDown, engGood] "auto" none
    ["down", "good"] (mkRat 6 10) 1 [engDown, engGood] (by rfl) (by decide)
    (by decide) (by decide)
    (by
      intro j hj
      have hj0 : j = 0 := by omega
      subst hj0
      show acceptedAt (mkRat 6 10) engDown = false
      decide)
  exact ⟨h.1, h.2.2⟩

/-- **C2 (amended)**: exceptions raised by a backend during the attempt
loop are caught: with no accepted attempt the loop visits every engine
and records, for an engine whose call raised, a failure attempt
(`success = false`, confidence 0, the error message attached) and goes
on to the next candidate; but the re-invocation of the best backend
during exhaustion handling is *not* guarded, so the only way
`extract_with_fallback` itself raises is an exception from some
backend's (re-)invocation, which then propagates. -/
theorem claim2_loop_catches_backend_errors :
    (∀ (threshold : ℚ) (es : List Engine) (counts : Counts),
      FreshCounts es counts → (es.map Engine.name).Nodup →
      (∀ e ∈ es, acceptedAt threshold e = false) →
      (runLoop threshold true es counts).1 = none ∧
      (runLoop threshold true es counts).2.1 = es.map record0) ∧
    (∀ (e : Engine) (m : String), e.runs 0 = .err m →
      record0 e = ⟨e.name, false, 0, some m⟩) ∧
    (∀ (factory : List Engine) (preferred : String) (fb : Bool)
      (fallbackEngines : Option (List String)) (threshold : ℚ)
      (settingsOrder : List String) (msg : String),
      extractWithFallback factory preferred fb fallbackEngines threshold settingsOrder
        = .error msg →
      ∃ e, e ∈ factory ∧ ∃ k, e.runs k = .err msg) := by
  refine ⟨fun th es c h1 h2 h3 => runLoop_no_accept th es c h1 h2 h3, ?_, ?_⟩
  · intro e m h
    simp [record0, h]
  · intro factory preferred fb fallbackEngines threshold settingsOrder msg h
    simp only [extractWithFallback, extractWithFallbackX] at h
    by_cases hA : (availEngines factory
        (resolveOrder factory preferred fb fallbackEngines settingsOrder)).isEmpty
    · rw [if_pos hA] at h
      simp at h
    · rw [if_neg hA] at h
      rcases hr : runLoop threshold fb
          (availEngines factory
            (resolveOrder factory preferred fb fallbackEngines settingsOrder))
          zeroCounts with ⟨r1, res, cnt⟩
      rw [hr] at h
      cases r1 with
      | some p =>
        rcases p with ⟨t, conf⟩
        simp at h
      | none =>
        dsimp only at h
        cases hb : maxByConf res with
        | none => rw [hb] at h; simp at h
        | some best =>
          rw [hb] at h
          dsimp only at h
          by_cases hc : 0 < best.confidence
          · rw [if_pos hc] at h
            cases hf : findEngine factory best.engine with
            | none =>
              have hmem : best ∈ res := maxByConf_mem res best hb
              have hmem2 : best ∈ (runLoop threshold fb
                  (availEngines factory
                    (resolveOrder factory preferred fb fallbackEngines settingsOrder))
                  zeroCounts).2.1 := by rw [hr]; exact hmem
              obtain ⟨e, he, hn⟩ := runLoop_mem threshold fb _ zeroCounts best hmem2
              have := mem_avail_find factory _ e he
              rw [hn, this] at hf
              exact absurd hf (by simp)
            | some e =>
              rw [hf] at h
              dsimp only at h
              cases ho : e.runs (getCount cnt e.name) with
              | ok t c => rw [ho] at h; simp at h
              | err m =>
                rw [ho] at h
                dsimp only at h
                have hm : m = msg := by
                  injection h with h'
                exact ⟨e, findEngine_mem factory best.engine e hf, getCount cnt e.name,
                  hm ▸ ho⟩
          · rw [if_neg hc] at h
            simp at h

/-- Counterexample for C2 as stated: a backend succeeds below threshold
on its first call and raises on its second; the exhaustion re-invocation
is unguarded, so `extract_with_fallback` itself raises — contradicting
"no single backend failure causes extract_with_fallback itself to
raise ... including the re-invocation". -/
theorem claim2_counterexample :
    extractWithFallback [engFlaky] "auto" true none (mkRat 6 10) ["flaky"]
      = .error "boom" := by rfl

/-- Witness for C2's amended theorem: one always-raising backend — the
loop catches the exception and records the failure attempt. -/
theorem claim2_loop_catches_backend_errors_witness :
    (runLoop (mkRat 6 10) true [engDown] zeroCounts).2.1
        = [⟨"down", false, 0, some "down"⟩]
    ∧ record0 engDown = ⟨"down", false, 0, some "down"⟩ := by
  have h := claim2_loop_catches_backend_errors.1 (mkRat 6 10) [engDown] zeroCounts
    (fun e _ => rfl) (by decide)
    (by
      intro e he
      have he' : e = engDown := by simpa using he
      subst he'
      decide)
  have h2 := claim2_loop_catches_backend_errors.2.1 engDown "down" rfl
  refine ⟨h.2.trans ?_, ?_⟩
  · rw [List.map_cons, List.map_nil, h2]
    rfl
  · rw [h2]
    rfl

/-- **C4 (amended)**: with `enable_fallback = false` and at least one
available engine, the attempt loop makes exactly one attempt — the
returned history, when the call returns, is exactly the first engine's
single attempt record — but the backend may be *invoked a second time*:
when the single attempt is not accepted and its confidence is positive,
the exhaustion handler re-invokes it, so the invocation count is 1 when
the attempt is accepted and at most 2 in general. -/
theorem claim4_no_fallback_single_attempt :
    ∀ (factory : List Engine) (preferred : String)
      (fallbackEngines : Option (List String)) (threshold : ℚ)
      (settingsOrder : List String) (e : Engine) (rest : List Engine),
      availEngines factory
          (resolveOrder factory preferred false fallbackEngines settingsOrder)
        = e :: rest →
      (∀ t c h,
        (extractWithFallbackX factory preferred false fallbackEngines threshold
            settingsOrder).1 = .ok (t, c, h) → h = [record0 e]) ∧
      getCount (extractWithFallbackX factory preferred false fallbackEngines threshold
          settingsOrder).2 e.name ≤ 2 ∧
      (acceptedAt threshold e = true →
        getCount (extractWithFallbackX factory preferred false fallbackEngines threshold
            settingsOrder).2 e.name = 1) := by
  intro factory preferred fallbackEngines threshold settingsOrder e rest hA
  have hfind : findEngine factory e.name = some e :=
    mem_avail_find factory _ e (by rw [hA]; exact List.mem_cons_self e rest)
  have hz : getCount zeroCounts e.name = 0 := rfl
  simp only [extractWithFallbackX, hA, List.isEmpty_cons, Bool.false_eq_true, if_false]
  rw [runLoop_nofb_cons, hz]
  cases he : e.runs 0 with
  | ok t conf =>
    have hrec : record0 e = ⟨e.name, true, conf, none⟩ := by simp [record0, he]
    have hnacc : acceptedAt threshold e = accepted threshold t conf := by
      simp [acceptedAt, he]
    dsimp only
    by_cases ha : accepted threshold t conf
    · rw [if_pos ha]
      dsimp only
      refine ⟨?_, ?_, ?_⟩
      · intro t' c' h' hEq
        simp only [Except.ok.injEq, Prod.mk.injEq] at hEq
        rw [← hEq.2.2, hrec]
      · rw [getCount_bump_self, hz]
        omega
      · intro _
        rw [getCount_bump_self, hz]
    · rw [if_neg ha]
      dsimp only
      have hmax : maxByConf [(⟨e.name, true, conf, none⟩ : EngineResult)]
          = some ⟨e.name, true, conf, none⟩ := rfl
      rw [hmax]
      dsimp only
      by_cases hc : (0 : ℚ) < conf
      · rw [if_pos hc, hfind]
        dsimp only
        rw [getCount_bump_self, hz]
        cases ho : e.runs (0 + 1) with
        | ok t2 c2 =>
          dsimp only
          refine ⟨?_, ?_, ?_⟩
          · intro t' c' h' hEq
            simp only [Except.ok.injEq, Prod.mk.injEq] at hEq
            rw [← hEq.2.2, hrec]
          · rw [getCount_bump_self, getCount_bump_self, hz]
          · intro hacc
            rw [hnacc] at hacc
            exact absurd hacc ha
        | err m =>
          dsimp only
          refine ⟨?_, ?_, ?_⟩
          · intro t' c' h' hEq
            simp at hEq
          · rw [getCount_bump_self, getCount_bump_self, hz]
          · intro hacc
            rw [hnacc] at hacc
            exact absurd hacc ha
      · rw [if_neg hc]
        dsimp only
        refine ⟨?_, ?_, ?_⟩
        · intro t' c' h' hEq
          simp only [Except.ok.injEq, Prod.mk.injEq] at hEq
          rw [← hEq.2.2, hrec]
        · rw [getCount_bump_self, hz]
          omega
        · intro hacc
          rw [hnacc] at hacc
          exact absurd hacc ha
  | err m =>
    have hrec : record0 e = ⟨e.name, false, 0, some m⟩ := by simp [record0, he]
    dsimp only
    have hmax : maxByConf [(⟨e.name, false, 0, some m⟩ : EngineResult)]
        = some ⟨e.name, false, 0, some m⟩ := rfl
    rw [hmax]
    dsimp only
    rw [if_neg (lt_irrefl (0 : ℚ))]
    refine ⟨?_, ?_, ?_⟩
    · intro t' c' h' hEq
      simp only [Except.ok.injEq, Prod.mk.injEq] at hEq
      rw [← hEq.2.2, hrec]
    · rw [getCount_bump_self, hz]
      omega
    · intro hacc
      have hfa : acceptedAt threshold e = false := by simp [acceptedAt, he]
      rw [hfa] at hacc
      simp at hacc

/-- Counterexample for C4 as stated: with `enable_fallback = false` and
one available engine whose attempt scores 0.3 (positive but below the
0.6 threshold), the backend is invoked **twice** — the loop attempt and
the exhaustion re-invocation — and the returned text is the second
call's, refuting "the backend is invoked exactly once regardless of the
confidence obtained". -/
theorem claim4_counterexample :
    getCount (extractWithFallbackX [engTwice] "auto" false none (mkRat 6 10)
        ["twice"]).2 "twice" = 2
    ∧ (extractWithFallbackX [engTwice] "auto" false none (mkRat 6 10) ["twice"]).1
      = .ok ("y", mkRat 1 2, [⟨"twice", true, mkRat 3 10, none⟩]) :=
  ⟨by decide, by rfl⟩

/-- Witness for C4's amended theorem at one concrete engine. -/
theorem claim4_no_fallback_single_attempt_witness :
    getCount (extractWithFallbackX [engTwice] "auto" false none (mkRat 6 10)
        ["twice"]).2 "twice" ≤ 2
    ∧ [(⟨"twice", true, mkRat 3 10, none⟩ : EngineResult)] = [record0 engTwice] := by
  have h := claim4_no_fallback_single_attempt [engTwice] "auto" none (mkRat 6 10)
    ["twice"] engTwice [] (by rfl)
  exact ⟨h.2.1, h.1 "y" (mkRat 1 2) [⟨"twice", true, mkRat 3 10, none⟩] (by rfl)⟩

/-- **C5**: the two hard-failure cases are signalled as data, never as a
raise: with zero available candidates after order resolution the result
is `("", 0.0, [])`; and when every candidate raises on every call (all
attempts failed outright, confidence 0), the result is `("", 0.0,
history)` with one failure record per candidate. -/
theorem claim5_hard_failures_as_data :
    (∀ (factory : List Engine) (preferred : String) (fb : Bool)
      (fallbackEngines : Option (List String)) (threshold : ℚ)
      (settingsOrder : List String),
      availEngines factory
          (resolveOrder factory preferred fb fallbackEngines settingsOrder) = [] →
      extractWithFallback factory preferred fb fallbackEngines threshold settingsOrder
        = .ok ("", 0, [])) ∧
    (∀ (factory : List Engine) (preferred : String)
      (fallbackEngines : Option (List String)) (threshold : ℚ)
      (settingsOrder : List String),
      availEngines factory
          (resolveOrder factory preferred true fallbackEngines settingsOrder) ≠ [] →
      (∀ e ∈ availEngines factory
          (resolveOrder factory preferred true fallbackEngines settingsOrder),
        ∀ k, ∃ m, e.runs k = .err m) →
      ∃ hist,
        extractWithFallback factory preferred true fallbackEngines threshold settingsOrder
          = .ok ("", 0, hist)
        ∧ hist.length = (availEngines factory
            (resolveOrder factory preferred true fallbackEngines settingsOrder)).length
        ∧ ∀ r ∈ hist, r.success = false ∧ r.confidence = 0) := by
  constructor
  · intro factory preferred fb fallbackEngines threshold settingsOrder hA
    simp only [extractWithFallback, extractWithFallbackX, hA]
    rfl
  · intro factory preferred fallbackEngines threshold settingsOrder hne hAllErr
    obtain ⟨l1, l2, l3⟩ := runLoop_allerr threshold
      (availEngines factory
        (resolveOrder factory preferred true fallbackEngines settingsOrder))
      zeroCounts hAllErr
    have hA : (availEngines factory
        (resolveOrder factory preferred true fallbackEngines settingsOrder)).isEmpty
          = false := by
      cases hAv : availEngines factory
          (resolveOrder factory preferred true fallbackEngines settingsOrder) with
      | nil => exact absurd hAv hne
      | cons a t => rfl
    simp only [extractWithFallback, extractWithFallbackX, hA, Bool.false_eq_true,
      if_false]
    rcases hr : runLoop threshold true
        (availEngines factory
          (resolveOrder factory preferred true fallbackEngines settingsOrder))
        zeroCounts with ⟨r1, res, cnt⟩
    rw [hr] at l1 l2 l3
    simp only at l1 l2 l3
    subst l1
    refine ⟨res, ?_, l2, l3⟩
    dsimp only
    cases hb : maxByConf res with
    | none => rfl
    | some best =>
      have hmem : best ∈ res := maxByConf_mem res best hb
      have hconf : best.confidence = 0 := (l3 best hmem).2
      dsimp only
      rw [hconf, if_neg (lt_irrefl (0 : ℚ))]

/-- Witness for C5: the empty factory returns `("", 0, [])`; a single
always-raising backend yields the one-failure history. -/
theorem claim5_hard_failures_as_data_witness :
    extractWithFallback [] "auto" true none (mkRat 6 10) ["paddleocr"]
        = .ok ("", 0, [])
    ∧ ∃ hist,
        extractWithFallback [engDown] "auto" true none (mkRat 6 10) ["down"]
          = .ok ("", 0, hist)
        ∧ hist.length = 1 ∧ ∀ r ∈ hist, r.success = false ∧ r.confidence = 0 := by
  constructor
  · exact claim5_hard_failures_as_data.1 [] "auto" true none (mkRat 6 10)
      ["paddleocr"] (by rfl)
  · obtain ⟨hist, h1, h2, h3⟩ := claim5_hard_failures_as_data.2 [engDown] "auto"
      none (mkRat 6 10) ["down"]
      (by
        show ([engDown] : List Engine) ≠ []
        simp)
      (by
        intro e he k
        have he2 : e ∈ ([engDown] : List Engine) := he
        have he' : e = engDown := by simpa using he2
        subst he'
        exact ⟨"down", rfl⟩)
    exact ⟨hist, h1, h2, h3⟩

/-! ## Claim theorems: pattern matching, extraction, validation -/

theorem validateMandatFormat_spec (n : String) (hv : validateMandatFormat n = true) :
    n.length = 7 ∧ n.toList.all Char.isDigit = true ∧
    pyTake2 n ∈ (["19", "20", "21", "22", "23", "24", "25", "26"] : List String) := by
  unfold validateMandatFormat at hv
  by_cases h1 : (n.isEmpty || !(n.toList.all Char.isDigit)) = true
  · rw [if_pos h1] at hv
    cases hv
  · rw [if_neg h1] at hv
    by_cases h2 : n.length ≠ 7
    · rw [if_pos h2] at hv
      cases hv
    · rw [if_neg h2] at hv
      simp only [Bool.or_eq_true, Bool.not_eq_true', not_or] at h1
      have hdig : n.toList.all Char.isDigit = true := by
        cases hval : n.toList.all Char.isDigit with
        | false => exact absurd hval h1.2
        | true => rfl
      refine ⟨by omega, hdig, ?_⟩
      have hmem : pyTake2 n ∈ (["24", "23", "22", "21", "20", "19", "25", "26"] : List String) := by
        simpa [pyTake2] using hv
      simp only [List.mem_cons, List.not_mem_nil, or_false] at hmem ⊢
      tauto

/-- **C3**: every mandate or bordereau serial present in a
`DocumentInfo` produced by the metadata extractor is exactly 7
characters, all digits, with its first two digits in 19–26; a
pattern-matcher candidate failing the format validation is discarded and
the field is treated as absent. -/
theorem claim3_serial_format_invariant :
    (∀ (text : String) (coords : Option (List CoordItem)) (info : DocumentInfo),
      extractMandat text coords = some info →
      info.number.length = 7 ∧ info.number.toList.all Char.isDigit = true ∧
      pyTake2 info.number ∈ (["19", "20", "21", "22", "23", "24", "25", "26"] : List String)) ∧
    (∀ (text : String) (coords : Option (List CoordItem)) (info : DocumentInfo),
      extractBordereau text coords = some info →
      info.number.length = 7 ∧ info.number.toList.all Char.isDigit = true ∧
      pyTake2 info.number ∈ (["19", "20", "21", "22", "23", "24", "25", "26"] : List String)) ∧
    (∀ (text : String) (coords : Option (List CoordItem)) (n : String),
      pmExtractMandat text = some n → validateMandatFormat n = false →
      extractMandat text coords = none) ∧
    (∀ (text : String) (coords : Option (List CoordItem)) (n : String),
      pmExtractBordereau text = some n → validateBordereauFormat n = false →
      extractBordereau text coords = none) := by
  refine ⟨?_, ?_, ?_, ?_⟩
  · intro text coords info h
    simp only [extractMandat] at h
    by_cases ht : text.isEmpty
    · rw [if_pos ht] at h
      cases h
    · rw [if_neg ht] at h
      cases hm : pmExtractMandat text with
      | none => rw [hm] at h; cases h
      | some n =>
        rw [hm] at h
        dsimp only at h
        cases hv : validateMandatFormat n with
        | false => rw [hv] at h; simp at h
        | true =>
          rw [hv] at h
          simp only [Bool.not_true, Bool.false_eq_true, if_false,
            Option.some.injEq] at h
          have hnum : info.number = n := by rw [← h]
          rw [hnum]
          exact validateMandatFormat_spec n hv
  · intro text coords info h
    simp only [extractBordereau] at h
    by_cases ht : text.isEmpty
    · rw [if_pos ht] at h
      cases h
    · rw [if_neg ht] at h
      cases hm : pmExtractBordereau text with
      | none => rw [hm] at h; cases h
      | some n =>
        rw [hm] at h
        dsimp only at h
        cases hv : validateBordereauFormat n with
        | false => rw [hv] at h; simp at h
        | true =>
          rw [hv] at h
          simp only [Bool.not_true, Bool.false_eq_true, if_false,
            Option.some.injEq] at h
          have hnum : info.number = n := by rw [← h]
          rw [hnum]
          exact validateMandatFormat_spec n hv
  · intro text coords n hm hv
    simp [extractMandat, hm, hv]
  · intro text coords n hm hv
    simp [extractBordereau, hm, hv]

/-- Witness for C3: `MD/2412034` passes and yields serial 2412034;
`MD/9912034` (prefix 99) is matched by the pattern but discarded by the
validation; same for a bordereau. -/
theorem claim3_serial_format_invariant_witness :
    (("2412034" : String).length = 7
      ∧ ("2412034" : String).toList.all Char.isDigit = true
      ∧ pyTake2 "2412034" ∈ (["19", "20", "21", "22", "23", "24", "25", "26"] : List String))
    ∧ extractMandat "MD/9912034" none = none
    ∧ extractBordereau "BOR/9902756" none = none := by
  refine ⟨?_, ?_, ?_⟩
  · exact claim3_serial_format_invariant.1 "MD/2412034" none
      ⟨"mandat", "2412034", "MD/2412034", mkRat 85 100, none⟩ (by decide)
  · exact claim3_serial_format_invariant.2.2.1 "MD/9912034" none "9912034"
      (by decide) (by decide)
  · exact claim3_serial_format_invariant.2.2.2 "BOR/9902756" none "9902756"
      (by decide) (by decide)

/-- **C6**: the global confidence equals the spec's weighted average
over present fields only (mandate 0.4/own, bordereau 0.3/own, fiscal
year 0.2/0.9, dates-or-amounts 0.1/0.8, renormalized by the sum of
present weights); with only a mandate present the global confidence is
the mandate's own confidence, and with nothing present it is 0. -/
theorem claim6_confidence_aggregation :
    (∀ md : Metadata, calculateOverallConfidence md = overallConfidenceSpec md) ∧
    (∀ m : DocumentInfo,
      calculateOverallConfidence ⟨some m, none, none, [], [], none⟩ = m.confidence) ∧
    calculateOverallConfidence ⟨none, none, none, [], [], none⟩ = 0 := by
  refine ⟨?_, ?_, ?_⟩
  · intro md
    rcases md with ⟨ma, bo, ex, ds, am, be⟩
    cases ma <;> cases bo <;> cases ex <;> cases ds <;> cases am <;>
        simp [calculateOverallConfidence, overallConfidenceSpec] <;>
      ring_nf <;> norm_num
  · intro m
    simp [calculateOverallConfidence]
  · simp [calculateOverallConfidence]

/-- **C7**: `normalize_amount` strips the currency token and grouping
separators, keeps only the last period when several remain, and returns
no value for unparsable input: `"5 672 860 FCFA" ↦ 5672860`,
`"5,672,860" ↦ 5672860`, `"abc" ↦ None`, `"5.672.860" ↦ 5672.86`. -/
theorem claim7_normalize_amount :
    normalizeAmount "5 672 860 FCFA" = some 5672860
    ∧ normalizeAmount "5,672,860" = some 5672860
    ∧ normalizeAmount "abc" = none
    ∧ normalizeAmount "5.672.860" = some (mkRat 567286 100) :=
  ⟨by decide, by decide, by decide, by decide⟩

/-- Counterexample for C8 as stated: for the text
`"Émis le 15 décembre 2024"` the extractor produces exactly one date
record, but its `formatted` field is the raw occurrence, not
`"15/12/2024"`. -/
theorem claim8_counterexample :
    (extractDates "Émis le 15 décembre 2024").length = 1
    ∧ ∀ r ∈ extractDates "Émis le 15 décembre 2024", r.formatted ≠ "15/12/2024" :=
  ⟨by decide, by decide⟩

/-- **C8 (amended)**: for the text `"Émis le 15 décembre 2024"` the
extractor produces exactly one date record, categorized `"emission"`
from the preceding keyword window, with ISO value
`"2024-12-15T00:00:00"` and `formatted` equal to the raw matched
occurrence `"15 décembre 2024"`. -/
theorem claim8_emission_date :
    extractDates "Émis le 15 décembre 2024"
      = [⟨"2024-12-15T00:00:00", "15 décembre 2024", "emission", mkRat 8 10⟩] := by
  decide

theorem append_lit_ne (a b x y : String) (ca cb : Char)
    (hA : a.data.head? = some ca) (hB : b.data.head? = some cb) (hne : ca ≠ cb) :
    a ++ x ≠ b ++ y := by
  intro hEq
  have hd : (a ++ x).data.head? = (b ++ y).data.head? := by rw [hEq]
  rw [String.data_append, String.data_append] at hd
  cases ha : a.data with
  | nil => rw [ha] at hA; cases hA
  | cons c t =>
    rw [ha] at hA hd
    cases hb : b.data with
    | nil => rw [hb] at hB; cases hB
    | cons d u =>
      rw [hb] at hB hd
      simp only [List.cons_append, List.head?] at hd
      simp only [List.head?, Option.some.injEq] at hA hB
      rw [hA, hB] at hd
      exact hne (by injection hd)

/-- **C9**: a mandate/fiscal-year prefix mismatch is reported as a
warning, never as an error, and `is_valid` is exactly "the error list is
empty". -/
theorem claim9_year_mismatch_warning :
    (∀ md : Metadata,
      (validateExtraction md).is_valid = (validateExtraction md).errors.isEmpty) ∧
    (∀ (md : Metadata) (m : DocumentInfo) (ex : String),
      md.mandat = some m → md.exercice = some ex →
      pyTake2 m.number ≠ pyLast2 ex →
      ("Incohérence année mandat (" ++ pyTake2 m.number ++ ") et exercice ("
          ++ pyLast2 ex ++ ")") ∈ (validateExtraction md).warnings ∧
      ("Incohérence année mandat (" ++ pyTake2 m.number ++ ") et exercice ("
          ++ pyLast2 ex ++ ")") ∉ (validateExtraction md).errors) := by
  constructor
  · intro md
    rfl
  · intro md m ex hm hex hne
    constructor
    · simp only [validateExtraction, hm, hex]
      simp [hne, List.mem_append]
    · intro hmem
      simp only [validateExtraction, hm, hex] at hmem
      rw [List.mem_append, List.mem_append] at hmem
      rcases hmem with (h1 | h2) | h3
      · rcases Bool.eq_false_or_eq_true (validateMandatFormat m.number) with hv | hv
        · simp [hv] at h1
        · simp only [hv] at h1
          simp at h1
          exact append_lit_ne "Incohérence année mandat ("
            "Format mandat invalide: " _ _ 'I' 'F' (by decide) (by decide)
            (by decide) h1
      · cases hmb : md.bordereau with
        | none => simp [hmb] at h2
        | some b =>
          simp only [hmb] at h2
          rcases Bool.eq_false_or_eq_true (validateBordereauFormat b.number) with hv | hv
          · simp [hv] at h2
          · simp only [hv] at h2
            simp at h2
            exact append_lit_ne "Incohérence année mandat ("
              "Format bordereau invalide: " _ _ 'I' 'F' (by decide) (by decide)
              (by decide) h2
      · cases hpi : pyInt ex with
        | none =>
          simp only [hpi] at h3
          simp at h3
          exact append_lit_ne "Incohérence année mandat ("
            "Exercice invalide: " _ _ 'I' 'E' (by decide) (by decide)
            (by decide) h3
        | some y => simp [hpi] at h3

/-- Witness for C9: mandate serial 2412034 (prefix 24) with fiscal year
2023 gives the mismatch warning, no error, and a valid verdict. -/
theorem claim9_year_mismatch_warning_witness :
    ("Incohérence année mandat (" ++ pyTake2 "2412034" ++ ") et exercice ("
        ++ pyLast2 "2023" ++ ")")
      ∈ (validateExtraction ⟨some ⟨"mandat", "2412034", "MD/2412034", mkRat 85 100, none⟩,
          none, some "2023", [], [], none⟩).warnings
    ∧ ("Incohérence année mandat (" ++ pyTake2 "2412034" ++ ") et exercice ("
        ++ pyLast2 "2023" ++ ")")
      ∉ (validateExtraction ⟨some ⟨"mandat", "2412034", "MD/2412034", mkRat 85 100, none⟩,
          none, some "2023", [], [], none⟩).errors
    ∧ (validateExtraction ⟨some ⟨"mandat", "2412034", "MD/2412034", mkRat 85 100, none⟩,
          none, some "2023", [], [], none⟩).is_valid = true := by
  have h := claim9_year_mismatch_warning.2
    ⟨some ⟨"mandat", "2412034", "MD/2412034", mkRat 85 100, none⟩,
      none, some "2023", [], [], none⟩
    ⟨"mandat", "2412034", "MD/2412034", mkRat 85 100, none⟩ "2023" rfl rfl (by decide)
  refine ⟨h.1, h.2, ?_⟩
  have hv := claim9_year_mismatch_warning.1
    ⟨some ⟨"mandat", "2412034", "MD/2412034", mkRat 85 100, none⟩,
      none, some "2023", [], [], none⟩
  rw [hv]
  decide

/-- **C10**: every amount record returned by `extract_amounts` has a
strictly positive value, currency `"XAF"` and fixed confidence 0.85;
the output is a filtered subset of the pattern matches, and each
record's value is the normalization of some matched amount (so matches
whose normalization is `None` or non-positive are silently dropped). -/
theorem claim10_amount_positivity :
    (∀ (text : String), ∀ rec ∈ extractAmounts text,
      0 < rec.value ∧ rec.currency = "XAF" ∧ rec.confidence = mkRat 85 100) ∧
    (∀ text : String,
      (extractAmounts text).length ≤ (pmExtractAllAmounts text).length) ∧
    (∀ (text : String), ∀ rec ∈ extractAmounts text,
      ∃ s ∈ pmExtractAllAmounts text, normalizeAmount s = some rec.value) := by
  refine ⟨?_, ?_, ?_⟩
  · intro text rec h
    simp only [extractAmounts] at h
    by_cases ht : text.isEmpty
    · rw [if_pos ht] at h
      cases h
    · rw [if_neg ht] at h
      obtain ⟨s, _, hf⟩ := List.mem_filterMap.mp h
      cases hn : normalizeAmount s with
      | none => rw [hn] at hf; simp at hf
      | some v =>
        rw [hn] at hf
        dsimp only at hf
        by_cases hp : (0 : ℚ) < v
        · rw [if_pos hp] at hf
          injection hf with hf
          rw [← hf]
          exact ⟨hp, rfl, rfl⟩
        · rw [if_neg hp] at hf
          cases hf
  · intro text
    simp only [extractAmounts]
    by_cases ht : text.isEmpty
    · rw [if_pos ht]
      simp
    · rw [if_neg ht]
      exact List.length_filterMap_le _ _
  · intro text rec h
    simp only [extractAmounts] at h
    by_cases ht : text.isEmpty
    · rw [if_pos ht] at h
      cases h
    · rw [if_neg ht] at h
      obtain ⟨s, hs, hf⟩ := List.mem_filterMap.mp h
      cases hn : normalizeAmount s with
      | none => rw [hn] at hf; simp at hf
      | some v =>
        rw [hn] at hf
        dsimp only at hf
        by_cases hp : (0 : ℚ) < v
        · rw [if_pos hp] at hf
          injection hf with hf
          refine ⟨s, hs, ?_⟩
          rw [hn, ← hf]
        · rw [if_neg hp] at hf
          cases hf

/-- Witness for C10: in `"Total: 500 FCFA et 0 FCFA"` the `500` record is
positive with currency XAF and confidence 0.85 (while the literal
`"0 FCFA"` match is dropped: only three records remain for five pattern
matches). -/
theorem claim10_amount_positivity_witness :
    (0 < (⟨500, "XAF", "500 FCFA", "total", mkRat 85 100⟩ : AmountDict).value
      ∧ (⟨500, "XAF", "500 FCFA", "total", mkRat 85 100⟩ : AmountDict).currency = "XAF"
      ∧ (⟨500, "XAF", "500 FCFA", "total", mkRat 85 100⟩ : AmountDict).confidence
          = mkRat 85 100)
    ∧ (extractAmounts "Total: 500 FCFA et 0 FCFA").length
        ≤ (pmExtractAllAmounts "Total: 500 FCFA et 0 FCFA").length := by
  constructor
  · exact claim10_amount_positivity.1 "Total: 500 FCFA et 0 FCFA"
      ⟨500, "XAF", "500 FCFA", "total", mkRat 85 100⟩ (by decide)
  · exact claim10_amount_positivity.2.1 "Total: 500 FCFA et 0 FCFA"

end OcrApi
